import Mathlib

/-!
Verification of the mongodb-schema-parser aggregation engine (src/lib.rs)
against its natural-language specification.

The engine is shallowly embedded: BSON values become the mutual inductive
family Bson / BsonList / BsonDoc (a document is an ordered key-value list,
mirroring the ordered bson Document the Rust code iterates); the stateful
methods of SchemaParser (lib.rs lines 124-247) become pure state-passing
functions. The files field.rs, field_type.rs and value_type.rs are declared
in lib.rs (mod field; mod field_type; mod value_type) but are not part of
the sources provided, so the Field and FieldType operations they define are
modelled from the spec, constrained by their call sites in lib.rs; each such
definition carries a doc comment saying so.
-/

namespace Msp

mutual

/-- A decoded BSON value, as produced by the external decode step
(serde_json::from_str followed by Bson::from in lib.rs line 158-159).
Constructors cover the value shapes the decode step yields; a floating-point
number is represented opaquely by its decimal literal token, since IEEE
arithmetic is never performed on it by the engine. -/
inductive Bson where
  | null : Bson
  | boolean (b : Bool) : Bson
  | int32 (n : Int) : Bson
  | int64 (n : Int) : Bson
  | double (lit : String) : Bson
  | string (s : String) : Bson
  | array (elts : BsonList) : Bson
  | document (entries : BsonDoc) : Bson

/-- The elements of a BSON array, in order. -/
inductive BsonList where
  | nil : BsonList
  | cons (hd : Bson) (tl : BsonList) : BsonList

/-- The entries of a BSON document, in key order, as iterated by
`for (key, value) in doc` (lib.rs line 222). -/
inductive BsonDoc where
  | nil : BsonDoc
  | cons (key : String) (value : Bson) (tl : BsonDoc) : BsonDoc

end

mutual

/-- Decidable equality on Bson (Rust: the derived PartialEq used by
value comparison). -/
def Bson.decEq : (a b : Bson) → Decidable (a = b)
  | .null, .null => isTrue rfl
  | .boolean a, .boolean b =>
    if h : a = b then isTrue (by rw [h]) else isFalse (fun hh => h (Bson.boolean.inj hh))
  | .int32 a, .int32 b =>
    if h : a = b then isTrue (by rw [h]) else isFalse (fun hh => h (Bson.int32.inj hh))
  | .int64 a, .int64 b =>
    if h : a = b then isTrue (by rw [h]) else isFalse (fun hh => h (Bson.int64.inj hh))
  | .double a, .double b =>
    if h : a = b then isTrue (by rw [h]) else isFalse (fun hh => h (Bson.double.inj hh))
  | .string a, .string b =>
    if h : a = b then isTrue (by rw [h]) else isFalse (fun hh => h (Bson.string.inj hh))
  | .array a, .array b =>
    match BsonList.decEq a b with
    | isTrue h => isTrue (by rw [h])
    | isFalse h => isFalse (fun hh => h (Bson.array.inj hh))
  | .document a, .document b =>
    match BsonDoc.decEq a b with
    | isTrue h => isTrue (by rw [h])
    | isFalse h => isFalse (fun hh => h (Bson.document.inj hh))
  | .null, .boolean _ | .null, .int32 _ | .null, .int64 _ | .null, .double _
  | .null, .string _ | .null, .array _ | .null, .document _
  | .boolean _, .null | .boolean _, .int32 _ | .boolean _, .int64 _ | .boolean _, .double _
  | .boolean _, .string _ | .boolean _, .array _ | .boolean _, .document _
  | .int32 _, .null | .int32 _, .boolean _ | .int32 _, .int64 _ | .int32 _, .double _
  | .int32 _, .string _ | .int32 _, .array _ | .int32 _, .document _
  | .int64 _, .null | .int64 _, .boolean _ | .int64 _, .int32 _ | .int64 _, .double _
  | .int64 _, .string _ | .int64 _, .array _ | .int64 _, .document _
  | .double _, .null | .double _, .boolean _ | .double _, .int32 _ | .double _, .int64 _
  | .double _, .string _ | .double _, .array _ | .double _, .document _
  | .string _, .null | .string _, .boolean _ | .string _, .int32 _ | .string _, .int64 _
  | .string _, .double _ | .string _, .array _ | .string _, .document _
  | .array _, .null | .array _, .boolean _ | .array _, .int32 _ | .array _, .int64 _
  | .array _, .double _ | .array _, .string _ | .array _, .document _
  | .document _, .null | .document _, .boolean _ | .document _, .int32 _ | .document _, .int64 _
  | .document _, .double _ | .document _, .string _ | .document _, .array _ =>
    isFalse (fun h => Bson.noConfusion h)

/-- Decidable equality on BSON array element lists. -/
def BsonList.decEq : (a b : BsonList) → Decidable (a = b)
  | .nil, .nil => isTrue rfl
  | .cons a as, .cons b bs =>
    match Bson.decEq a b, BsonList.decEq as bs with
    | isTrue h1, isTrue h2 => isTrue (by rw [h1, h2])
    | isFalse h1, _ => isFalse (fun hh => h1 (BsonList.cons.inj hh).1
      )
    | _, isFalse h2 => isFalse (fun hh => h2 (BsonList.cons.inj hh).2
      )
  | .nil, .cons _ _ => isFalse (fun h => BsonList.noConfusion h)
  | .cons _ _, .nil => isFalse (fun h => BsonList.noConfusion h)

/-- Decidable equality on BSON document entry lists. -/
def BsonDoc.decEq : (a b : BsonDoc) → Decidable (a = b)
  | .nil, .nil => isTrue rfl
  | .cons k a as, .cons l b bs =>
    if hk : k = l then
      match Bson.decEq a b, BsonDoc.decEq as bs with
      | isTrue h1, isTrue h2 => isTrue (by rw [hk, h1, h2])
      | isFalse h1, _ => isFalse (fun hh => h1 (BsonDoc.cons.inj hh).2.1
        )
      | _, isFalse h2 => isFalse (fun hh => h2 (BsonDoc.cons.inj hh).2.2
        )
    else isFalse (fun hh => hk (BsonDoc.cons.inj hh).1
      )
  | .nil, .cons _ _ _ => isFalse (fun h => BsonDoc.noConfusion h)
  | .cons _ _ _, .nil => isFalse (fun h => BsonDoc.noConfusion h)

end

instance : DecidableEq Bson := Bson.decEq

instance : DecidableEq BsonList := BsonList.decEq

instance : DecidableEq BsonDoc := BsonDoc.decEq

/-- Modelled from the spec: the kind-classification of a value into the
closed tag set of section 4.2 (the classification lives in the missing
field_type.rs, reached through FieldType::new(..).add_to_type(&value) in
lib.rs line 239). Only the tags for the value shapes present in the
embedding are needed. -/
def Bson.kindName : Bson → String
  | .null => "Null"
  | .boolean _ => "Boolean"
  | .int32 _ => "Int32"
  | .int64 _ => "Int64"
  | .double _ => "Double"
  | .string _ => "String"
  | .array _ => "Array"
  | .document _ => "Document"

/-- Modelled from the spec: the KindStat of section 3 (struct FieldType in
the missing field_type.rs; lib.rs uses its methods new, add_to_type,
update_count, update_value). It carries the owning path, the kind tag
(absent until a first value is classified), the observation count and the
bounded value sample. -/
structure FieldType where
  path : String
  bsonType : Option String
  count : Int
  values : List Bson
  deriving DecidableEq

/-- Modelled from the spec: the ValueSample bound N of section 3
("bounded to a fixed maximum size N (recommended 5-10)"); value_type.rs is
not in the provided sources, so the recommended upper value 10 is fixed. -/
def sampleBound : Nat := 10

/-- Modelled from the spec: KindStat count increment (section 4.1 step 6,
"increment its count"); called from lib.rs line 211. -/
def FieldType.update_count (t : FieldType) : FieldType :=
  { t with count := t.count + 1 }

/-- Modelled from the spec: ValueSample insertion (section 3, "first-N-distinct
-- once full, further distinct values are dropped", set semantics keyed by
value equality); called from lib.rs line 212. -/
def FieldType.update_value (t : FieldType) (value : Bson) : FieldType :=
  if value ∈ t.values then t
  else if t.values.length < sampleBound then { t with values := t.values ++ [value] }
  else t

/-- Modelled from the spec: a fresh KindStat for a path before any
observation (FieldType::new in the missing field_type.rs, called at
lib.rs line 239). -/
def FieldType.new (path : String) : FieldType :=
  { path := path, bsonType := none, count := 0, values := [] }

/-- Modelled from the spec: first observation of a value by a fresh KindStat
(section 4.1 step 6: record the kind, count the observation, sample the
value); FieldType::add_to_type at lib.rs line 239. -/
def FieldType.add_to_type (t : FieldType) (value : Bson) : FieldType :=
  ({ t with bsonType := some value.kindName }).update_count.update_value value

/-- Modelled from the spec: the FieldStat of section 3 (struct Field in the
missing field.rs; lib.rs reads .name and .types and calls new, get_path,
add_to_types): terminal key name, full dot-joined path, per-document count
and the ordered kind statistics. -/
structure Field where
  name : String
  path : String
  count : Int
  types : List FieldType
  deriving DecidableEq

/-- Modelled from the spec: the dot-joined full path (section 3, "fully
qualified dot-joined path from the document root"); Field::get_path at
lib.rs line 231 receives the key and the optional parent path. -/
def Field.get_path (key : String) (path : Option String) : String :=
  match path with
  | none => key
  | some p => p ++ "." ++ key

/-- Modelled from the spec: a fresh FieldStat (section 4.1 step 4, "create a
new FieldStat with count = 0") -- Field::new at lib.rs line 232 receives the
key, the full path and the count value 0 and starts with no kinds. -/
def Field.new (name : String) (path : String) (count : Int) : Field :=
  { name := name, path := path, count := count, types := [] }

/-- Modelled from the spec: appending a KindStat to a FieldStat's ordered
kind mapping (insertion order = first-seen order); Field::add_to_types at
lib.rs line 240. -/
def Field.add_to_types (f : Field) (t : FieldType) : Field :=
  { f with types := f.types ++ [t] }

/-- The aggregator (lib.rs lines 85-88): document counter (i64, modelled as
an unbounded integer) and the ordered field collection. -/
structure SchemaParser where
  count : Int
  fields : List Field
  deriving DecidableEq

/-- SchemaParser::new (lib.rs lines 134-139). -/
def SchemaParser.new : SchemaParser :=
  { count := 0, fields := [] }

/-- SchemaParser::add_to_fields (lib.rs lines 188-190): push onto the
fields vector. -/
def SchemaParser.add_to_fields (sp : SchemaParser) (field : Field) : SchemaParser :=
  { sp with fields := sp.fields ++ [field] }

/-- SchemaParser::does_field_name_exist (lib.rs lines 194-201): linear scan
comparing each stored field's bare name against the key. -/
def SchemaParser.does_field_name_exist (sp : SchemaParser) (key : String) : Bool :=
  sp.fields.any fun field => field.name == key

/-- SchemaParser::update_field (lib.rs lines 204-216): for every stored
field whose bare name equals the key, bump the count of every one of its
FieldTypes and offer the value to every one of their samples. -/
def SchemaParser.update_field (sp : SchemaParser) (key : String) (value : Bson) : SchemaParser :=
  { sp with
    fields := sp.fields.map fun field =>
      if field.name == key then
        { field with
          types := field.types.map fun field_type =>
            (field_type.update_count).update_value value }
      else field }

mutual

/-- SchemaParser::generate_field (lib.rs lines 219-246): walk the document's
entries in order; a key whose bare name already exists goes through
update_field, otherwise a new field is generated for it. The body of the
else branch of the source's loop is split out as generate_new_field so that
the recursion into subdocuments stays structural. -/
def SchemaParser.generate_field (sp : SchemaParser) (doc : BsonDoc) (path : Option String) : SchemaParser :=
  match doc with
  | .nil => sp
  | .cons key value rest =>
    let sp' :=
      if sp.does_field_name_exist key then
        sp.update_field key value
      else
        sp.generate_new_field key value path
    sp'.generate_field rest path

/-- The else branch of SchemaParser::generate_field's loop (lib.rs lines
229-243): build the new field with count 0; a document value recurses into
the subdocument under the extended path and the (kind-less) parent field is
pushed afterwards; any other value gets a single fresh FieldType. -/
def SchemaParser.generate_new_field (sp : SchemaParser) (key : String) (value : Bson) (path : Option String) : SchemaParser :=
  let current_path := Field.get_path key path
  let field := Field.new key current_path 0
  match value with
  | Bson.document subdoc =>
    (sp.generate_field subdoc (some current_path)).add_to_fields field
  | _ =>
    let field_type := (FieldType.new current_path).add_to_type value
    sp.add_to_fields (field.add_to_types field_type)

end

/-- The outcome of the external decode step feeding SchemaParser::write
(lib.rs line 158): either serde_json::from_str failed, or it yielded a
value that Bson::from turned into a Bson tree. -/
inductive DecodeInput where
  | parseError : DecodeInput
  | value (bson : Bson) : DecodeInput

/-- The observable outcome of one SchemaParser::write call: an Err return
(carrying the receiver's state at return time), an Ok return with the
updated state, or a panic (the process aborts, no state survives). -/
inductive WriteResult where
  | ok (sp : SchemaParser) : WriteResult
  | error (sp : SchemaParser) : WriteResult
  | panic : WriteResult
  deriving DecidableEq

/-- SchemaParser::write (lib.rs lines 154-166): a decode failure is
propagated by the question-mark operator before any state is touched; a
decoded root that is not a document makes .as_document().unwrap() panic
(line 161); otherwise the count is incremented (lines 162-163) and the
root's entries are merged by generate_field (line 164). -/
def SchemaParser.write (sp : SchemaParser) (json : DecodeInput) : WriteResult :=
  match json with
  | .parseError => .error sp
  | .value bson =>
    match bson with
    | Bson.document doc =>
      let sp' : SchemaParser := { sp with count := sp.count + 1 }
      .ok (sp'.generate_field doc none)
    | _ => .panic

/-- Comma-joined concatenation, for the JSON rendering below. -/
def joinComma : List String → String
  | [] => ""
  | [s] => s
  | s :: rest => s ++ "," ++ joinComma rest

mutual

/-- Modelled from the spec: the downstream encode collaborator (section 6)
rendering a sampled value; the engine defines only the in-memory shape, not
the wire bytes, so a straightforward JSON rendering stands in for the derived
serde serialization. -/
def Bson.render : Bson → String
  | .null => "null"
  | .boolean b => cond b "true" "false"
  | .int32 n => toString n
  | .int64 n => toString n
  | .double lit => lit
  | .string s => "\"" ++ s ++ "\""
  | .array l => "[" ++ l.render ++ "]"
  | .document d => "\x7b" ++ d.render ++ "\x7d"

/-- Rendering of array elements, comma separated. -/
def BsonList.render : BsonList → String
  | .nil => ""
  | .cons v .nil => v.render
  | .cons v tl => v.render ++ "," ++ tl.render

/-- Rendering of document entries, comma separated. -/
def BsonDoc.render : BsonDoc → String
  | .nil => ""
  | .cons k v .nil => "\"" ++ k ++ "\":" ++ v.render
  | .cons k v tl => "\"" ++ k ++ "\":" ++ v.render ++ "," ++ tl.render

end

/-- Modelled from the spec: rendering of one KindStat for the export view. -/
def FieldType.render (t : FieldType) : String :=
  "\x7b\"path\":\"" ++ t.path ++ "\",\"bsonType\":"
    ++ (match t.bsonType with
        | none => "null"
        | some s => "\"" ++ s ++ "\"")
    ++ ",\"count\":" ++ toString t.count
    ++ ",\"values\":[" ++ joinComma (t.values.map Bson.render) ++ "]\x7d"

/-- Modelled from the spec: rendering of one FieldStat for the export view. -/
def Field.render (f : Field) : String :=
  "\x7b\"name\":\"" ++ f.name ++ "\",\"path\":\"" ++ f.path
    ++ "\",\"count\":" ++ toString f.count
    ++ ",\"types\":[" ++ joinComma (f.types.map FieldType.render) ++ "]\x7d"

/-- Modelled from the spec: rendering of the whole model for the export
view (the serde serialization of SchemaParser derived at lib.rs line 84). -/
def SchemaParser.render (sp : SchemaParser) : String :=
  "\x7b\"count\":" ++ toString sp.count
    ++ ",\"fields\":[" ++ joinComma (sp.fields.map Field.render) ++ "]\x7d"

/-- SchemaParser::to_json (lib.rs lines 181-185): serialize the current
state; serde_json::to_string on this plainly-derived structure cannot fail,
so the Ok branch is total. No emptiness check is performed. -/
def SchemaParser.to_json (sp : SchemaParser) : Except String String :=
  Except.ok sp.render

/-- Sequencing of write calls that insists every call succeeds: the result
is the final state when each write returned Ok, and none otherwise. -/
def SchemaParser.writeAll (sp : SchemaParser) : List DecodeInput → Option SchemaParser
  | [] => some sp
  | json :: rest =>
    match sp.write json with
    | .ok sp' => sp'.writeAll rest
    | .error _ => none
    | .panic => none

/-- One observable step of the model's lifecycle: the state after a write
call, whatever its outcome (a panic aborts the process, so the prior state
is the last one that ever existed; it is kept so that reachability talks
about total functions). -/
def SchemaParser.runWrite (sp : SchemaParser) (json : DecodeInput) : SchemaParser :=
  match sp.write json with
  | .ok sp' => sp'
  | .error sp' => sp'
  | .panic => sp

/-- The ValueSample invariant of section 3 for every KindStat in the model:
at most sampleBound values, no duplicates. -/
def SchemaParser.sampleInv (sp : SchemaParser) : Prop :=
  ∀ f ∈ sp.fields, ∀ t ∈ f.types, t.values.length ≤ sampleBound ∧ t.values.Nodup

mutual

/-- All keys appearing in a value's document structure, at every nesting
depth (array elements are opaque leaves for the walk, lib.rs line 238). -/
def Bson.treeKeys : Bson → List String
  | .document d => d.treeKeys
  | _ => []

/-- All keys of a document's entries and their nested subdocuments. -/
def BsonDoc.treeKeys : BsonDoc → List String
  | .nil => []
  | .cons k v tl => k :: (v.treeKeys ++ tl.treeKeys)

end

mutual

/-- The fields generate_field appends for one fresh entry (key, value) whose
full path is cur: a leaf value contributes its own FieldStat with one
FieldType; a document value contributes the fields of its subdocument walk
followed by the kind-less parent FieldStat. -/
def Bson.walkFields (key : String) (v : Bson) (cur : String) : List Field :=
  match v with
  | .document d => BsonDoc.walkFields d (some cur) ++ [Field.new key cur 0]
  | _ => [(Field.new key cur 0).add_to_types ((FieldType.new cur).add_to_type v)]

/-- The fields generate_field appends for a document of fresh entries under
a path prefix, in walk order. -/
def BsonDoc.walkFields : BsonDoc → Option String → List Field
  | .nil, _ => []
  | .cons k v tl, path =>
    Bson.walkFields k v (Field.get_path k path) ++ BsonDoc.walkFields tl path

end

end Msp

namespace Msp

/-- Scenario A, first document (spec section 8): a cat named Nori. -/
def docNoriCat : BsonDoc := .cons "name" (.string "Nori") (.cons "type" (.string "Cat") .nil)

/-- Scenario A, second document (spec section 8): a cat named Chashu. -/
def docChashuCat : BsonDoc := .cons "name" (.string "Chashu") (.cons "type" (.string "Cat") .nil)

/-- Scenario B, first document (spec section 8). -/
def docNameNori : BsonDoc := .cons "name" (.string "Nori") .nil

/-- Scenario B, second document (spec section 8): the same key with an
integer value. -/
def docName42 : BsonDoc := .cons "name" (.int64 42) .nil

/-- One document carrying the two distinct paths a.name and b.name that
share the terminal key "name". -/
def docAB : BsonDoc :=
  .cons "a" (.document (.cons "name" (.string "x") .nil))
    (.cons "b" (.document (.cons "name" (.string "y") .nil)) .nil)

/-- Scenario C document (spec section 8): a subdocument under "owner". -/
def docOwner : BsonDoc := .cons "owner" (.document (.cons "name" (.string "Nori") .nil)) .nil

theorem update_field_count (sp : SchemaParser) (key : String) (value : Bson) :
    (sp.update_field key value).count = sp.count := rfl

theorem add_to_fields_count (sp : SchemaParser) (f : Field) :
    (sp.add_to_fields f).count = sp.count := rfl

mutual

theorem generate_field_count : ∀ (sp : SchemaParser) (doc : BsonDoc) (path : Option String),
    (sp.generate_field doc path).count = sp.count
  | sp, .nil, path => rfl
  | sp, .cons key value rest, path => by
      rw [SchemaParser.generate_field]
      rw [generate_field_count _ rest path]
      by_cases h : sp.does_field_name_exist key
      · simp only [h, if_true]
        rfl
      · simp only [h, Bool.false_eq_true, if_false]
        exact generate_new_field_count sp key value path

theorem generate_new_field_count : ∀ (sp : SchemaParser) (key : String) (value : Bson) (path : Option String),
    (sp.generate_new_field key value path).count = sp.count
  | sp, key, .document subdoc, path => by
      rw [SchemaParser.generate_new_field]
      exact generate_field_count sp subdoc _
  | _, _, .null, _ => rfl
  | _, _, .boolean _, _ => rfl
  | _, _, .int32 _, _ => rfl
  | _, _, .int64 _, _ => rfl
  | _, _, .double _, _ => rfl
  | _, _, .string _, _ => rfl
  | _, _, .array _, _ => rfl

end

theorem update_value_inv (t : FieldType) (v : Bson)
    (h1 : t.values.length ≤ sampleBound) (h2 : t.values.Nodup) :
    (t.update_value v).values.length ≤ sampleBound ∧ (t.update_value v).values.Nodup := by
  rw [FieldType.update_value]
  by_cases hmem : v ∈ t.values
  · simp only [hmem, if_true]
    exact ⟨h1, h2⟩
  · by_cases hlen : t.values.length < sampleBound
    · simp only [hmem, if_false, hlen, if_true]
      refine ⟨?_, ?_⟩
      · simp only [List.length_append, List.length_cons, List.length_nil]
        omega
      · simp only [List.nodup_append, List.nodup_cons, List.nodup_nil]
        refine ⟨h2, ⟨by simp, by simp⟩, ?_⟩
        simp only [List.disjoint_singleton]
        exact hmem
    · simp only [hmem, if_false, hlen, if_false]
      exact ⟨h1, h2⟩

theorem sampleInv_update_field (sp : SchemaParser) (key : String) (value : Bson)
    (h : sp.sampleInv) : (sp.update_field key value).sampleInv := by
  intro f hf t ht
  rw [SchemaParser.update_field] at hf
  simp only [List.mem_map] at hf
  obtain ⟨f0, hf0, rfl⟩ := hf
  by_cases hname : f0.name == key
  · simp only [hname, if_true] at ht
    simp only [List.mem_map] at ht
    obtain ⟨t0, ht0, rfl⟩ := ht
    have h0 := h f0 hf0 t0 ht0
    exact update_value_inv (t0.update_count) value h0.1 h0.2
  · simp only [hname, if_false] at ht
    exact h f0 hf0 t ht

theorem sampleInv_add_to_fields (sp : SchemaParser) (f : Field)
    (h : sp.sampleInv) (hf : ∀ t ∈ f.types, t.values.length ≤ sampleBound ∧ t.values.Nodup) :
    (sp.add_to_fields f).sampleInv := by
  intro g hg t ht
  rw [SchemaParser.add_to_fields] at hg
  simp only [List.mem_append, List.mem_singleton] at hg
  rcases hg with hg | rfl
  · exact h g hg t ht
  · exact hf t ht

theorem fresh_type_inv (p : String) (v : Bson) :
    ∀ t ∈ ((Field.new k p 0).add_to_types ((FieldType.new p).add_to_type v)).types,
      t.values.length ≤ sampleBound ∧ t.values.Nodup := by
  intro t ht
  simp only [Field.add_to_types, Field.new, List.nil_append, List.mem_singleton] at ht
  subst ht
  rw [FieldType.add_to_type, FieldType.update_value]
  by_cases hmem : v ∈ (({ FieldType.new p with bsonType := some v.kindName }).update_count).values
  · simp only [hmem, if_true]
    constructor
    · simp [FieldType.new, FieldType.update_count, sampleBound]
    · simp [FieldType.new, FieldType.update_count]
  · simp only [hmem, if_true, if_false]
    split
    · constructor
      · simp [FieldType.new, FieldType.update_count, sampleBound]
      · simp [FieldType.new, FieldType.update_count]
    · constructor
      · simp [FieldType.new, FieldType.update_count, sampleBound]
      · simp [FieldType.new, FieldType.update_count]

mutual

theorem sampleInv_generate_field : ∀ (sp : SchemaParser) (doc : BsonDoc) (path : Option String),
    sp.sampleInv → (sp.generate_field doc path).sampleInv
  | sp, .nil, path, h => h
  | sp, .cons key value rest, path, h => by
      rw [SchemaParser.generate_field]
      apply sampleInv_generate_field _ rest path
      by_cases hex : sp.does_field_name_exist key
      · simp only [hex, if_true]
        exact sampleInv_update_field sp key value h
      · simp only [hex, Bool.false_eq_true, if_false]
        exact sampleInv_generate_new_field sp key value path h

theorem sampleInv_generate_new_field : ∀ (sp : SchemaParser) (key : String) (value : Bson) (path : Option String),
    sp.sampleInv → (sp.generate_new_field key value path).sampleInv
  | sp, key, .document subdoc, path, h => by
      apply sampleInv_add_to_fields
      · exact sampleInv_generate_field sp subdoc _ h
      · intro t ht
        simp [Field.new] at ht
  | sp, key, .null, path, h =>
      sampleInv_add_to_fields _ _ h (fresh_type_inv _ _)
  | sp, key, .boolean _, path, h =>
      sampleInv_add_to_fields _ _ h (fresh_type_inv _ _)
  | sp, key, .int32 _, path, h =>
      sampleInv_add_to_fields _ _ h (fresh_type_inv _ _)
  | sp, key, .int64 _, path, h =>
      sampleInv_add_to_fields _ _ h (fresh_type_inv _ _)
  | sp, key, .double _, path, h =>
      sampleInv_add_to_fields _ _ h (fresh_type_inv _ _)
  | sp, key, .string _, path, h =>
      sampleInv_add_to_fields _ _ h (fresh_type_inv _ _)
  | sp, key, .array _, path, h =>
      sampleInv_add_to_fields _ _ h (fresh_type_inv _ _)

end

theorem sampleInv_runWrite (sp : SchemaParser) (json : DecodeInput)
    (h : sp.sampleInv) : (sp.runWrite json).sampleInv := by
  rw [SchemaParser.runWrite]
  cases json with
  | parseError => exact h
  | value bson =>
    cases bson with
    | document doc =>
      simp only [SchemaParser.write]
      exact sampleInv_generate_field _ doc none h
    | null => exact h
    | boolean b => exact h
    | int32 n => exact h
    | int64 n => exact h
    | double lit => exact h
    | string s => exact h
    | array l => exact h

theorem sampleInv_foldl (l : List DecodeInput) (sp : SchemaParser)
    (h : sp.sampleInv) : (l.foldl SchemaParser.runWrite sp).sampleInv := by
  induction l generalizing sp with
  | nil => exact h
  | cons j rest ih => exact ih _ (sampleInv_runWrite sp j h)

theorem write_ok_count (sp : SchemaParser) (json : DecodeInput) (sp' : SchemaParser)
    (h : sp.write json = .ok sp') : sp'.count = sp.count + 1 := by
  cases json with
  | parseError => exact absurd h (by simp [SchemaParser.write])
  | value bson =>
    cases bson with
    | document doc =>
      simp only [SchemaParser.write, WriteResult.ok.injEq] at h
      subst h
      rw [generate_field_count]
    | null => exact absurd h (by simp [SchemaParser.write])
    | boolean b => exact absurd h (by simp [SchemaParser.write])
    | int32 n => exact absurd h (by simp [SchemaParser.write])
    | int64 n => exact absurd h (by simp [SchemaParser.write])
    | double lit => exact absurd h (by simp [SchemaParser.write])
    | string s => exact absurd h (by simp [SchemaParser.write])
    | array l => exact absurd h (by simp [SchemaParser.write])

theorem writeAll_count (l : List DecodeInput) (sp sp' : SchemaParser)
    (h : sp.writeAll l = some sp') : sp'.count = sp.count + l.length := by
  induction l generalizing sp with
  | nil =>
    simp only [SchemaParser.writeAll, Option.some.injEq] at h
    subst h
    simp
  | cons j rest ih =>
    rw [SchemaParser.writeAll] at h
    revert h
    cases hw : sp.write j with
    | ok sp1 =>
      intro h
      have := ih sp1 h
      rw [this, write_ok_count sp j sp1 hw]
      simp only [List.length_cons]
      push_cast
      ring
    | error sp1 => intro h; exact absurd h (by simp)
    | panic => intro h; exact absurd h (by simp)

theorem does_field_name_exist_false (sp : SchemaParser) (key : String) :
    sp.does_field_name_exist key = false ↔ ∀ f ∈ sp.fields, f.name ≠ key := by
  simp [SchemaParser.does_field_name_exist, List.any_eq_false]

theorem update_field_name_path (sp : SchemaParser) (key : String) (value : Bson) :
    (sp.update_field key value).fields.map (fun f => (f.name, f.path)) =
      sp.fields.map (fun f => (f.name, f.path)) := by
  rw [SchemaParser.update_field]
  simp only [List.map_map]
  apply List.map_congr_left
  intro f _
  simp only [Function.comp_apply]
  split <;> rfl

mutual

theorem walkFields_name_bson : ∀ (key : String) (v : Bson) (cur : String) (f : Field),
    f ∈ Bson.walkFields key v cur → f.name = key ∨ f.name ∈ v.treeKeys
  | key, .document d, cur, f, hf => by
      simp only [Bson.walkFields, List.mem_append, List.mem_singleton] at hf
      rcases hf with hf | rfl
      · right
        simp only [Bson.treeKeys]
        exact walkFields_name_doc d (some cur) f hf
      · left
        rfl
  | key, .null, cur, f, hf => by
      simp only [Bson.walkFields, List.mem_singleton] at hf
      subst hf
      left
      rfl
  | key, .boolean _, cur, f, hf => by
      simp only [Bson.walkFields, List.mem_singleton] at hf
      subst hf
      left
      rfl
  | key, .int32 _, cur, f, hf => by
      simp only [Bson.walkFields, List.mem_singleton] at hf
      subst hf
      left
      rfl
  | key, .int64 _, cur, f, hf => by
      simp only [Bson.walkFields, List.mem_singleton] at hf
      subst hf
      left
      rfl
  | key, .double _, cur, f, hf => by
      simp only [Bson.walkFields, List.mem_singleton] at hf
      subst hf
      left
      rfl
  | key, .string _, cur, f, hf => by
      simp only [Bson.walkFields, List.mem_singleton] at hf
      subst hf
      left
      rfl
  | key, .array _, cur, f, hf => by
      simp only [Bson.walkFields, List.mem_singleton] at hf
      subst hf
      left
      rfl

theorem walkFields_name_doc : ∀ (d : BsonDoc) (path : Option String) (f : Field),
    f ∈ BsonDoc.walkFields d path → f.name ∈ d.treeKeys
  | .nil, path, f, hf => by simp only [BsonDoc.walkFields, List.not_mem_nil] at hf
  | .cons k v tl, path, f, hf => by
      simp only [BsonDoc.walkFields, List.mem_append] at hf
      simp only [BsonDoc.treeKeys, List.mem_cons, List.mem_append]
      rcases hf with hf | hf
      · rcases walkFields_name_bson k v (Field.get_path k path) f hf with h | h
        · exact Or.inl h
        · exact Or.inr (Or.inl h)
      · exact Or.inr (Or.inr (walkFields_name_doc tl path f hf))

end

mutual

theorem generate_field_fresh : ∀ (sp : SchemaParser) (doc : BsonDoc) (path : Option String),
    doc.treeKeys.Nodup →
    (∀ k ∈ doc.treeKeys, sp.does_field_name_exist k = false) →
    (sp.generate_field doc path).fields = sp.fields ++ BsonDoc.walkFields doc path
  | sp, .nil, path, _, _ => by
      simp [SchemaParser.generate_field, BsonDoc.walkFields]
  | sp, .cons key value rest, path, hnd, hfr => by
      have hkey : sp.does_field_name_exist key = false :=
        hfr key (by simp [BsonDoc.treeKeys])
      rw [SchemaParser.generate_field]
      simp only [hkey, Bool.false_eq_true, if_false]
      rw [BsonDoc.treeKeys] at hnd
      simp only [List.nodup_cons, List.nodup_append, List.mem_append] at hnd
      obtain ⟨hkmem, hvnd, htlnd, hdisj⟩ := hnd
      have hvfr : ∀ k ∈ value.treeKeys, sp.does_field_name_exist k = false := fun k hk =>
        hfr k (by simp [BsonDoc.treeKeys, hk])
      have hstep := generate_new_field_fresh sp key value path hvnd hvfr
      have hfr' : ∀ k ∈ rest.treeKeys,
          (sp.generate_new_field key value path).does_field_name_exist k = false := by
        intro k hk
        rw [does_field_name_exist_false]
        intro f hf
        rw [hstep] at hf
        rcases List.mem_append.mp hf with hf | hf
        · exact (does_field_name_exist_false sp k).mp
            (hfr k (by simp [BsonDoc.treeKeys, hk])) f hf
        · rcases walkFields_name_bson key value (Field.get_path key path) f hf with h | h
          · rw [h]
            intro hkk
            exact hkmem (hkk ▸ Or.inr hk)
          · intro hkk
            exact hdisj (hkk ▸ h) hk
      have hrec := generate_field_fresh (sp.generate_new_field key value path) rest path htlnd hfr'
      rw [hrec, hstep, BsonDoc.walkFields, List.append_assoc]

theorem generate_new_field_fresh : ∀ (sp : SchemaParser) (key : String) (value : Bson) (path : Option String),
    value.treeKeys.Nodup →
    (∀ k ∈ value.treeKeys, sp.does_field_name_exist k = false) →
    (sp.generate_new_field key value path).fields =
      sp.fields ++ Bson.walkFields key value (Field.get_path key path)
  | sp, key, .document subdoc, path, hnd, hfr => by
      have hsub := generate_field_fresh sp subdoc (some (Field.get_path key path))
        (by simpa [Bson.treeKeys] using hnd) (by simpa [Bson.treeKeys] using hfr)
      show ((sp.generate_field subdoc (some (Field.get_path key path))).add_to_fields
        (Field.new key (Field.get_path key path) 0)).fields = _
      rw [SchemaParser.add_to_fields]
      simp only [hsub, Bson.walkFields, List.append_assoc]
  | sp, key, .null, path, _, _ => rfl
  | sp, key, .boolean _, path, _, _ => rfl
  | sp, key, .int32 _, path, _, _ => rfl
  | sp, key, .int64 _, path, _, _ => rfl
  | sp, key, .double _, path, _, _ => rfl
  | sp, key, .string _, path, _, _ => rfl
  | sp, key, .array _, path, _, _ => rfl

end

end Msp

namespace Msp

/-- Claim C1: the claim says two distinct full paths sharing a terminal key
name (a.name and b.name) are resolved to two independent FieldStat entries.
The code instead looks fields up by bare key (does_field_name_exist,
update_field), so ingesting one document with both paths produces a single
FieldStat -- name "name", path "a.name" -- holding both observations, and no
entry with path "b.name" exists. -/
theorem c1_bare_name_lookup :
    SchemaParser.new.write (.value (.document docAB)) =
      .ok ⟨1, [⟨"name", "a.name", 0, [⟨"a.name", some "String", 2, [.string "x", .string "y"]⟩]⟩,
               ⟨"a", "a", 0, []⟩, ⟨"b", "b", 0, []⟩]⟩ ∧
    "b.name" ∉ (SchemaParser.new.runWrite (.value (.document docAB))).fields.map Field.path :=
  ⟨rfl, by decide⟩

/-- Claim C2: the claim says ingesting a value of a new kind into an existing
field creates the KindStat for that kind and leaves other kinds' counts
unchanged (scenario B: String count 1 and Int count 1). The code's
update_field instead bumps every existing FieldType of the matched field and
never creates one, so scenario B ends with a single KindStat, kind String,
count 2, holding both sampled values. -/
theorem c2_blanket_kind_update :
    SchemaParser.new.writeAll [.value (.document docNameNori), .value (.document docName42)] =
      some ⟨2, [⟨"name", "name", 0, [⟨"name", some "String", 2, [.string "Nori", .int64 42]⟩]⟩]⟩ :=
  rfl

/-- Claim C3: the claim says each ingested document increments the resolved
FieldStat's count by 1 (scenario A: field counts 2 after two documents). The
code never touches Field.count: fields are created with count 0 (lib.rs line
220/232) and update_field only updates FieldType counts, so after scenario A
both FieldStat counts are still 0. -/
theorem c3_field_count_never_incremented :
    SchemaParser.new.writeAll [.value (.document docNoriCat), .value (.document docChashuCat)] =
      some ⟨2, [⟨"name", "name", 0, [⟨"name", some "String", 2, [.string "Nori", .string "Chashu"]⟩]⟩,
                ⟨"type", "type", 0, [⟨"type", some "String", 2, [.string "Cat"]⟩]⟩]⟩ ∧
    ((SchemaParser.new.runWrite (.value (.document docNoriCat))).runWrite
        (.value (.document docChashuCat))).fields.map Field.count = [0, 0] :=
  ⟨rfl, rfl⟩

/-- Claim C4: the claim says a decoded root that is not a document yields the
typed failure DecodeError(NotADocument). The code instead calls
.as_document().unwrap() on the decoded value (lib.rs line 161), which panics
when the root is not a document, e.g. for the input "5" (root Int64 5). -/
theorem c4_non_document_root_panics :
    SchemaParser.new.write (.value (.int64 5)) = WriteResult.panic := rfl

/-- Claim C5 (counterexample): the claim says snapshot/export fails with
EmptyModelError when documentCount is 0. The code's to_json has no emptiness
check and serialization cannot fail, so on the freshly created model (count
0) it returns a successful result. -/
theorem c5_counterexample :
    SchemaParser.new.count = 0 ∧
    SchemaParser.new.to_json = Except.ok "\x7b\"count\":0,\"fields\":[]\x7d" :=
  ⟨rfl, rfl⟩

/-- Claim C5 (amended): the snapshot/export operation never fails; in
particular for every model state with documentCount 0 it returns a
successful serialization of the model. -/
theorem c5_to_json_total :
    ∀ sp : SchemaParser, sp.count = 0 → ∃ s, sp.to_json = Except.ok s :=
  fun sp _ => ⟨sp.render, rfl⟩

/-- Witness for c5_to_json_total at the freshly created model. -/
theorem c5_to_json_total_witness :
    SchemaParser.new.count = 0 ∧ ∃ s, SchemaParser.new.to_json = Except.ok s :=
  ⟨rfl, c5_to_json_total SchemaParser.new rfl⟩

/-- Claim C6: every successful write increments the document counter by
exactly 1, and after any sequence of n successful writes starting from the
empty model the counter equals n. -/
theorem c6_document_count :
    (∀ (sp : SchemaParser) (json : DecodeInput) (sp' : SchemaParser),
        sp.write json = .ok sp' → sp'.count = sp.count + 1) ∧
    (∀ (l : List DecodeInput) (sp' : SchemaParser),
        SchemaParser.new.writeAll l = some sp' → sp'.count = l.length) := by
  constructor
  · exact write_ok_count
  · intro l sp' h
    have hc := writeAll_count l SchemaParser.new sp' h
    simpa [SchemaParser.new] using hc

/-- Witness for c6_document_count: one successful write of the empty
document on the empty model yields count 1. -/
theorem c6_document_count_witness :
    ((⟨1, []⟩ : SchemaParser).count = SchemaParser.new.count + 1) ∧
    ((⟨1, []⟩ : SchemaParser).count = ([DecodeInput.value (Bson.document .nil)].length : Int)) :=
  ⟨c6_document_count.1 SchemaParser.new (DecodeInput.value (Bson.document .nil)) ⟨1, []⟩ rfl,
   c6_document_count.2 [DecodeInput.value (Bson.document .nil)] ⟨1, []⟩ rfl⟩

/-- Claim C7 (counterexample): the claim says the field order equals the
order in which paths are first seen during the walk, with parents
encountered before their nested children appearing before them. Ingesting
one document with a subdocument under "owner" produces the order
[owner.name, owner]: the child precedes its parent, while the walk sees
"owner" first. -/
theorem c7_counterexample :
    (SchemaParser.new.runWrite (.value (.document docOwner))).fields.map Field.path =
      ["owner.name", "owner"] ∧
    (["owner.name", "owner"] : List String) ≠ ["owner", "owner.name"] :=
  ⟨rfl, by decide⟩

/-- Claim C7 (amended): within one successful ingest whose tree keys are
pairwise distinct and all new to the model, the field collection grows by
appending exactly the walk's fields, in completion order: each leaf key
contributes its FieldStat at its position in the walk, and a subdocument key
contributes the FieldStat entries of its nested children followed by its own
(children before parent); updates to existing bare names never insert,
remove or reorder entries. -/
theorem c7_walk_append_order :
    (∀ (sp : SchemaParser) (doc : BsonDoc) (sp' : SchemaParser),
        doc.treeKeys.Nodup →
        (∀ k ∈ doc.treeKeys, sp.does_field_name_exist k = false) →
        sp.write (.value (.document doc)) = .ok sp' →
        sp'.fields = sp.fields ++ BsonDoc.walkFields doc none) ∧
    (∀ (sp : SchemaParser) (key : String) (value : Bson),
        (sp.update_field key value).fields.map (fun f => (f.name, f.path)) =
          sp.fields.map (fun f => (f.name, f.path))) := by
  constructor
  · intro sp doc sp' hnd hfr hw
    simp only [SchemaParser.write, WriteResult.ok.injEq] at hw
    subst hw
    exact generate_field_fresh _ doc none hnd hfr
  · exact update_field_name_path

/-- Witness for c7_walk_append_order at the owner document on the empty
model. -/
theorem c7_walk_append_order_witness :
    (docOwner.treeKeys.Nodup ∧
      (∀ k ∈ docOwner.treeKeys, SchemaParser.new.does_field_name_exist k = false)) ∧
    (⟨1, [⟨"name", "owner.name", 0, [⟨"owner.name", some "String", 1, [.string "Nori"]⟩]⟩,
          ⟨"owner", "owner", 0, []⟩]⟩ : SchemaParser).fields =
      SchemaParser.new.fields ++ BsonDoc.walkFields docOwner none :=
  ⟨⟨by decide, by decide⟩,
   c7_walk_append_order.1 SchemaParser.new docOwner
     ⟨1, [⟨"name", "owner.name", 0, [⟨"owner.name", some "String", 1, [.string "Nori"]⟩]⟩,
          ⟨"owner", "owner", 0, []⟩]⟩ (by decide) (by decide) rfl⟩

/-- Claim C8: in every model state reachable from the empty model by write
calls, every KindStat's value sample holds at most sampleBound values with
no duplicates; and a full sample drops any further value unchanged. -/
theorem c8_value_sample_invariant :
    (∀ l : List DecodeInput, (l.foldl SchemaParser.runWrite SchemaParser.new).sampleInv) ∧
    (∀ (t : FieldType) (value : Bson),
        sampleBound ≤ t.values.length → t.update_value value = t) := by
  constructor
  · intro l
    apply sampleInv_foldl
    intro f hf
    simp [SchemaParser.new] at hf
  · intro t v h
    rw [FieldType.update_value]
    split
    · rfl
    · split
      · omega
      · rfl

/-- Witness for c8_value_sample_invariant: a sample already holding
sampleBound values is left unchanged by a further distinct value. -/
theorem c8_value_sample_invariant_witness :
    sampleBound ≤ ([Bson.int64 0, .int64 1, .int64 2, .int64 3, .int64 4, .int64 5,
        .int64 6, .int64 7, .int64 8, .int64 9] : List Bson).length ∧
    FieldType.update_value
        ⟨"p", some "Int64", 10, [Bson.int64 0, .int64 1, .int64 2, .int64 3, .int64 4,
          .int64 5, .int64 6, .int64 7, .int64 8, .int64 9]⟩ (Bson.int64 99) =
      ⟨"p", some "Int64", 10, [Bson.int64 0, .int64 1, .int64 2, .int64 3, .int64 4,
        .int64 5, .int64 6, .int64 7, .int64 8, .int64 9]⟩ :=
  ⟨by decide,
   c8_value_sample_invariant.2
     ⟨"p", some "Int64", 10, [Bson.int64 0, .int64 1, .int64 2, .int64 3, .int64 4,
       .int64 5, .int64 6, .int64 7, .int64 8, .int64 9]⟩ (Bson.int64 99) (by decide)⟩

/-- Claim C9: whenever write returns an error (the decode step failed), the
model state carried back is exactly the state before the call: the question
mark operator propagates the failure before any mutation. -/
theorem c9_failed_write_atomic :
    ∀ (sp : SchemaParser) (json : DecodeInput) (sp' : SchemaParser),
      sp.write json = .error sp' → sp' = sp := by
  intro sp json sp' h
  cases json with
  | parseError =>
    simp only [SchemaParser.write, WriteResult.error.injEq] at h
    exact h.symm
  | value bson => cases bson <;> simp [SchemaParser.write] at h

/-- Witness for c9_failed_write_atomic at a decode failure on the empty
model. -/
theorem c9_failed_write_atomic_witness : SchemaParser.new = SchemaParser.new :=
  c9_failed_write_atomic SchemaParser.new .parseError SchemaParser.new rfl

/-- Claim C10: writing the empty document always succeeds, increments the
counter by exactly 1 and leaves the field collection unchanged. -/
theorem c10_empty_document_write :
    ∀ sp : SchemaParser, sp.write (.value (.document .nil)) = .ok ⟨sp.count + 1, sp.fields⟩ :=
  fun _ => rfl

end Msp
